import Mathlib

/-!
# Verification of the nuvolari measurement engine boundary

Shallow embedding of the `libnuvolari` C boundary
(`src/bindings/libnuvolari/nuvolari.h`) and of the measurement engine
behind it.  The C header contains the inline wrapper implementation of
`nuvolari_start_download`, `nuvolari_get_next_event`, `nuvolari_stop`
and `nuvolari_free_event`; the engine entry points
(`nuvolari_start_download_`, `nuvolari_get_next_event_`,
`nuvolari_stop_`, `nuvolari_free_event_`) are external to the sources
and are modelled from the specification where needed.
-/

namespace Nuvolari

/-! ## Heap model

A small model of the C heap visible at the boundary: a list of live
blocks, each a numeric block identifier paired with its string
contents, together with a fresh-identifier counter. -/

structure Heap where
  blocks : List (Nat × String)
  nextId : Nat
deriving Repr, DecidableEq

/-- The identifiers of the live blocks. -/
def Heap.ids (h : Heap) : List Nat :=
  h.blocks.map (fun b => b.1)

/-- Read the contents of a block, `none` if the pointer is dangling. -/
def Heap.look (h : Heap) (p : Nat) : Option String :=
  (h.blocks.find? (fun b => b.1 == p)).map (fun b => b.2)

/-- Allocate a fresh block holding `s`; returns the new pointer. -/
def Heap.alloc (h : Heap) (s : String) : Nat × Heap :=
  (h.nextId, ⟨(h.nextId, s) :: h.blocks, h.nextId + 1⟩)

/-- Release the block `p` (C `free` on a non-null pointer). -/
def Heap.release (h : Heap) (p : Nat) : Heap :=
  ⟨h.blocks.filter (fun b => decide (b.1 ≠ p)), h.nextId⟩

/-- C `free`: no-op on the null pointer, releases the block otherwise. -/
def Heap.releaseOpt (h : Heap) : Option Nat → Heap
  | none => h
  | some p => h.release p

/-- Heap well-formedness: every live block identifier is below the
fresh-identifier counter. -/
def Heap.wf (h : Heap) : Bool :=
  h.blocks.all (fun b => decide (b.1 < h.nextId))

/-- Whether the block `p` is currently live. -/
def Heap.live (h : Heap) (p : Nat) : Bool :=
  h.blocks.any (fun b => b.1 == p)

/-- The empty heap. -/
def emptyHeap : Heap := ⟨[], 0⟩

/-! ## The C wrapper `nuvolari_start_download`

Embedding of the inline implementation in `nuvolari.h`:

```c
int nuvolari_start_download(const char *settings) {
  char *copy = NULL;
  if (settings != NULL) {
    copy = strdup(settings);
    if (copy == NULL) { return 1; }
  }
  int rv = nuvolari_start_download_(copy);
  free(copy);
  return rv;
}
```

The engine entry point is a parameter `engine` acting on the string it
receives (the duplicated contents, or `none` for `NULL`) and on its own
state `σ`; it does not touch the caller-visible C heap.  `settings` is a
caller pointer (`none` models `NULL`); `allocOk` models whether `strdup`
succeeds.  The result is `none` when the call dereferences a dangling
pointer (undefined behaviour), and otherwise carries the returned status
code, the final heap and the final engine state. -/

def nuvolari_start_download {σ : Type} (engine : Option String → σ → Int × σ)
    (h : Heap) (settings : Option Nat) (allocOk : Bool) (es : σ) :
    Option (Int × Heap × σ) :=
  match settings with
  | none =>
    let r := engine none es
    some (r.1, h.releaseOpt none, r.2)
  | some p =>
    match h.look p with
    | none => none
    | some s =>
      if allocOk then
        let a := h.alloc s
        let r := engine (some s) es
        some (r.1, (a.2).releaseOpt (some a.1), r.2)
      else
        some (1, h, es)

/-! ## Engine data model

The engine entry points (`nuvolari_start_download_` and friends) are
external to the repository sources; everything below is modelled from
the specification (§3, §4, §6, §7). -/

/-- Modelled from the spec: reason a session terminated
(`enum{Converged, DurationCap, Cancelled, Error}`, §3). -/
inductive TerminatedReason
  | Converged
  | DurationCap
  | Cancelled
  | Error
deriving Repr, DecidableEq

/-- Modelled from the spec: one per-window throughput sample (§3).
`float64` bitrates are modelled as rationals. -/
structure Sample where
  window_index : Nat
  elapsed_ms : Nat
  bytes_in_window : Nat
  cumulative_bytes : Nat
  instantaneous_bitrate_bps : Rat
  average_bitrate_bps : Rat
deriving Repr, DecidableEq

/-- Modelled from the spec: the final aggregate event (§3). -/
structure SummaryEvent where
  total_bytes : Nat
  total_duration_ms : Nat
  final_bitrate_bps : Rat
  terminated_reason : TerminatedReason
deriving Repr, DecidableEq

/-- Modelled from the spec: an in-stream error report (§3, §7). -/
structure ErrorEvent where
  message : String
deriving Repr, DecidableEq

/-- Modelled from the spec: the payload of a MeasurementEvent, a tagged
union over `Sample`, `SummaryEvent` and `ErrorEvent` (§3). -/
inductive EventBody
  | sample (s : Sample)
  | summary (s : SummaryEvent)
  | error (e : ErrorEvent)
deriving Repr, DecidableEq

/-- Whether a body is the final summary. -/
def EventBody.isSummary : EventBody → Bool
  | .summary _ => true
  | _ => false

/-- Whether a body is an error report. -/
def EventBody.isError : EventBody → Bool
  | .error _ => true
  | _ => false

/-- Serialization type tag of a body (§6 schema). -/
def EventBody.typeTag : EventBody → String
  | .sample _ => "sample"
  | .summary _ => "summary"
  | .error _ => "error"

/-- Modelled from the spec: a MeasurementEvent carries a sequence
number, a timestamp and a body (§3). -/
structure MeasurementEvent where
  seq : Nat
  ts : Nat
  body : EventBody
deriving Repr, DecidableEq

/-- Modelled from the spec: serialization of an event into owned text
(§6; the exact wire format is an external output transform, so a
simple field rendering stands in for it). -/
def serializeEvent (e : MeasurementEvent) : String :=
  "seq=" ++ toString e.seq ++ ";ts=" ++ toString e.ts ++
    ";type=" ++ e.body.typeTag

/-! ## EventQueue

Modelled from the spec (§4.5): FIFO ordered sequence of events,
terminated by a sentinel, single producer / single consumer. -/

/-- Modelled from the spec: the EventQueue, pending items in FIFO order
plus whether the terminal marker has been pushed (§4.5). -/
structure EventQueue where
  items : List MeasurementEvent
  closed : Bool
deriving Repr, DecidableEq

/-- Modelled from the spec: `push(event)`, producer side (§4.5). -/
def EventQueue.push (q : EventQueue) (e : MeasurementEvent) : EventQueue :=
  ⟨q.items ++ [e], q.closed⟩

/-- Push a whole emission sequence in order. -/
def EventQueue.pushAll (q : EventQueue) (es : List MeasurementEvent) : EventQueue :=
  es.foldl EventQueue.push q

/-- Modelled from the spec: `close()`, pushes the terminal marker;
idempotent (§4.5). -/
def EventQueue.close (q : EventQueue) : EventQueue :=
  ⟨q.items, true⟩

/-- Modelled from the spec: `pop()`, consumer side (§4.5).  Outer
`none` means the consumer blocks (no item and no terminal marker yet);
`some none` is the end-of-stream sentinel; `some (some e)` hands the
next event over, with the resulting queue. -/
def EventQueue.pop (q : EventQueue) : Option (Option MeasurementEvent × EventQueue) :=
  match q.items with
  | e :: rest => some (some e, ⟨rest, q.closed⟩)
  | [] => if q.closed then some (none, q) else none

/-- The list of outcomes a consumer observes by calling `pop` `n`
times; the observation stops early if a call would block. -/
def drainObs : Nat → EventQueue → List (Option MeasurementEvent)
  | 0, _ => []
  | n + 1, q =>
    match q.pop with
    | some (o, q') => o :: drainObs n q'
    | none => []

/-! ## Session run model

Modelled from the spec: the measurement process runs asynchronously and
ends by convergence, duration cap, cancellation or transport error
(§4.1, §4.4, §7).  A run is abstracted by its exit path together with
the bytes received in each completed sampling window; the engine
constants (sampling interval and the adaptive parameters) are fixed
engine constants (§4.4 and the §9 open question). -/

/-- Modelled from the spec: the sampling interval, a fixed engine
constant (§4.3, §9). -/
def samplingIntervalMs : Nat := 250

/-- Modelled from the spec: how a session run ends, with the bytes
received in each completed sampling window (§4.4, §7). -/
inductive ExitPath
  | converged (bytes : List Nat)
  | durationCap (bytes : List Nat)
  | cancelled (bytes : List Nat)
  | transportError (bytes : List Nat)
deriving Repr, DecidableEq

/-- Bytes received per completed window on this path. -/
def ExitPath.bytes : ExitPath → List Nat
  | .converged b => b
  | .durationCap b => b
  | .cancelled b => b
  | .transportError b => b

/-- The `terminated_reason` the summary carries for this path (§4.4, §7). -/
def ExitPath.reason : ExitPath → TerminatedReason
  | .converged _ => .Converged
  | .durationCap _ => .DurationCap
  | .cancelled _ => .Cancelled
  | .transportError _ => .Error

/-- Whether the path ends in a transport/read error (§7). -/
def ExitPath.hasError : ExitPath → Bool
  | .transportError _ => true
  | _ => false

/-- Modelled from the spec: the samples a run produces, one per
sampling window — window bytes, cumulative bytes, instantaneous and
cumulative average bitrates (§4.3). -/
def mkSamples (bytes : List Nat) : List Sample :=
  (List.range bytes.length).map (fun i =>
    let b := bytes.getD i 0
    let cum := (bytes.take (i + 1)).sum
    let el := (i + 1) * samplingIntervalMs
    { window_index := i
      elapsed_ms := el
      bytes_in_window := b
      cumulative_bytes := cum
      instantaneous_bitrate_bps := ((b * 8 * 1000 : Nat) : Rat) / ((samplingIntervalMs : Nat) : Rat)
      average_bitrate_bps := ((cum * 8 * 1000 : Nat) : Rat) / ((el : Nat) : Rat) })

/-- Total wall-clock duration of the run, in milliseconds. -/
def ExitPath.durationMs (p : ExitPath) : Nat :=
  p.bytes.length * samplingIntervalMs

/-- Modelled from the spec: the final SummaryEvent of a run (§3). -/
def mkSummary (p : ExitPath) : SummaryEvent :=
  { total_bytes := p.bytes.sum
    total_duration_ms := p.durationMs
    final_bitrate_bps := ((p.bytes.sum * 8 * 1000 : Nat) : Rat) / ((p.durationMs : Nat) : Rat)
    terminated_reason := p.reason }

/-- Modelled from the spec: the bodies a run pushes, in emission order —
every sample, then (on a transport error only) one ErrorEvent, then
exactly one SummaryEvent (§4.1, §7). -/
def sessionBodies (p : ExitPath) : List EventBody :=
  (mkSamples p.bytes).map EventBody.sample
    ++ (if p.hasError then [EventBody.error ⟨"transport error"⟩] else [])
    ++ [EventBody.summary (mkSummary p)]

/-- Timestamp attached to a body: a sample is stamped at the end of its
window, the error and summary at the end of the run. -/
def bodyTs (p : ExitPath) : EventBody → Nat
  | .sample s => s.elapsed_ms
  | _ => p.durationMs

/-- Modelled from the spec: the full emission sequence of a run, with
monotonically increasing sequence numbers (§3). -/
def sessionEvents (p : ExitPath) : List MeasurementEvent :=
  (sessionBodies p).enum.map (fun ib => ⟨ib.1, bodyTs p ib.2, ib.2⟩)

/-! ## Engine state machine and entry points

Modelled from the spec: session lifecycle states (§3), the single
active session registry, and the boundary entry points
`nuvolari_start_download_`, `nuvolari_get_next_event_`,
`nuvolari_stop_`, `nuvolari_free_event_` (§4.1, §6). -/

/-- Modelled from the spec: the SessionState enumeration (§3). -/
inductive SessionState
  | Idle
  | Connecting
  | Measuring
  | Stopping
  | Completed
  | Failed
deriving Repr, DecidableEq

/-- Whether a session is currently active (`Connecting`/`Measuring`),
the condition under which a second `start` fails fast (§3, §4.1). -/
def SessionState.isActive : SessionState → Bool
  | .Connecting => true
  | .Measuring => true
  | _ => false

/-- Whether the session has already ended (or never started). -/
def SessionState.hasEnded : SessionState → Bool
  | .Idle => true
  | .Completed => true
  | .Failed => true
  | _ => false

/-- Modelled from the spec: the engine-side state at the boundary — the
lifecycle state of the (single) session, its EventQueue, and the
cooperative cancellation flag (§3, §5, §9). -/
structure EngineState where
  state : SessionState
  queue : EventQueue
  stopRequested : Bool
deriving Repr, DecidableEq

/-- Modelled from the spec: a parsed configuration (§3).  Parsing the
settings payload into this shape is an external collaborator (§1), so
the engine is parametric in the parse function. -/
structure Config where
  adaptive : Bool
  hostname : String
  port : String
  skip_tls_verify : Bool
deriving Repr, DecidableEq

/-- Modelled from the spec: numeric value of a non-empty run of
decimal digits, `none` on any non-digit character. -/
def digitsToNat : List Char → Nat → Option Nat
  | [], acc => some acc
  | c :: rest, acc =>
    if c.isDigit then digitsToNat rest (acc * 10 + (c.toNat - 48)) else none

/-- Modelled from the spec: parse a decimal port string (§3). -/
def portToNat (s : String) : Option Nat :=
  match s.data with
  | [] => none
  | l => digitsToNat l 0

/-- Modelled from the spec: configuration validity — non-empty
hostname, numeric port in 1–65535 (§3). -/
def validConfig (c : Config) : Bool :=
  (decide (c.hostname ≠ "")) &&
    (match portToNat c.port with
     | some n => decide (1 ≤ n) && decide (n ≤ 65535)
     | none => false)

/-- Modelled from the spec: engine status code for a start while a
session is active (non-zero, `AlreadyRunning`, §4.1, §6). -/
def codeAlreadyRunning : Int := 2

/-- Modelled from the spec: engine status code for malformed settings
(non-zero, `InvalidConfiguration`, §4.1, §6). -/
def codeInvalidConfiguration : Int := 3

/-- Modelled from the spec: the engine entry point behind
`nuvolari_start_download` (§4.1, §6, §7).  Fails fast, leaving the
state untouched, when a session is `Connecting`/`Measuring`; fails,
leaving the state untouched, when the settings are missing, unparsable
or invalid; otherwise moves `Idle → Connecting` with a fresh, open
EventQueue and reports success. -/
def nuvolari_start_download_ (parse : String → Option Config)
    (settings : Option String) (st : EngineState) : Int × EngineState :=
  if st.state.isActive then
    (codeAlreadyRunning, st)
  else
    match settings.bind parse with
    | none => (codeInvalidConfiguration, st)
    | some cfg =>
      if validConfig cfg then
        (0, ⟨.Connecting, ⟨[], false⟩, false⟩)
      else
        (codeInvalidConfiguration, st)

/-- Modelled from the spec: the engine entry point behind
`nuvolari_stop`: requests cooperative cancellation of the active
session; `Stopping` is reachable from `Connecting`/`Measuring`, and the
call is a no-op on every other state (§4.1, §6). -/
def nuvolari_stop_ (st : EngineState) : EngineState :=
  match st.state with
  | .Connecting => ⟨.Stopping, st.queue, true⟩
  | .Measuring => ⟨.Stopping, st.queue, true⟩
  | _ => st

/-- Modelled from the spec: the engine entry point behind
`nuvolari_get_next_event` (§6).  A blocking receive on the queue
(outer `none` = the call blocks); on an event, ownership of freshly
allocated serialized text transfers to the caller. -/
def nuvolari_get_next_event_ (st : EngineState) (h : Heap) :
    Option (Option Nat × Heap × EngineState) :=
  match st.queue.pop with
  | none => none
  | some (none, q') => some (none, h, ⟨st.state, q', st.stopRequested⟩)
  | some (some e, q') =>
    let a := h.alloc (serializeEvent e)
    some (some a.1, a.2, ⟨st.state, q', st.stopRequested⟩)

/-- Modelled from the spec: the engine entry point behind
`nuvolari_free_event`: releases the text block previously handed to the
caller (§6). -/
def nuvolari_free_event_ (p : Nat) (h : Heap) : Heap :=
  h.release p

/-! ## The remaining C wrappers

Embeddings of the inline implementations in `nuvolari.h`: each simply
forwards to the corresponding engine entry point. -/

/-- `char *nuvolari_get_next_event(void) { return nuvolari_get_next_event_(); }` -/
def nuvolari_get_next_event (st : EngineState) (h : Heap) :
    Option (Option Nat × Heap × EngineState) :=
  nuvolari_get_next_event_ st h

/-- `void nuvolari_stop(void) { nuvolari_stop_(); }` -/
def nuvolari_stop (st : EngineState) : EngineState :=
  nuvolari_stop_ st

/-- `void nuvolari_free_event(char *s) { nuvolari_free_event_(s); }` -/
def nuvolari_free_event (p : Nat) (h : Heap) : Heap :=
  nuvolari_free_event_ p h

/-! ## Shared lemmas -/

/-- Draining a closed empty queue observes only end-of-stream. -/
theorem drainObs_closed_nil (k : Nat) :
    drainObs k ⟨[], true⟩ = List.replicate k none := by
  induction k with
  | zero => rfl
  | succ n ih => simp [drainObs, EventQueue.pop, ih, List.replicate]

/-- Draining a closed queue observes every pending event in order, then
end-of-stream on every further call. -/
theorem drainObs_closed (l : List MeasurementEvent) (k : Nat) :
    drainObs (l.length + k) ⟨l, true⟩ = l.map some ++ List.replicate k none := by
  induction l with
  | nil => simpa using drainObs_closed_nil k
  | cons e rest ih =>
    have hlen : (e :: rest).length + k = (rest.length + k) + 1 := by
      simp [List.length_cons]; omega
    rw [hlen]
    simp [drainObs, EventQueue.pop, ih]

/-- Pushing a sequence of events appends it to the pending items. -/
theorem pushAll_items (es : List MeasurementEvent) (q : EventQueue) :
    q.pushAll es = ⟨q.items ++ es, q.closed⟩ := by
  induction es generalizing q with
  | nil => simp [EventQueue.pushAll]
  | cons e rest ih =>
    show (q.push e).pushAll rest = _
    rw [ih]
    simp [EventQueue.push]

/-- The bodies of a run's emission sequence, in order. -/
theorem sessionEvents_map_body (p : ExitPath) :
    (sessionEvents p).map (fun e => e.body) = sessionBodies p := by
  unfold sessionEvents
  rw [List.map_map]
  have hc : ((fun e : MeasurementEvent => e.body) ∘
      fun ib : Nat × EventBody => (⟨ib.1, bodyTs p ib.2, ib.2⟩ : MeasurementEvent))
      = Prod.snd := by
    funext ib
    rfl
  rw [hc, List.enum_map_snd]

/-- The sequence numbers of a run's emission sequence are `0, 1, 2, …`. -/
theorem sessionEvents_map_seq (p : ExitPath) :
    (sessionEvents p).map (fun e => e.seq) = List.range (sessionBodies p).length := by
  unfold sessionEvents
  rw [List.map_map]
  have hc : ((fun e : MeasurementEvent => e.seq) ∘
      fun ib : Nat × EventBody => (⟨ib.1, bodyTs p ib.2, ib.2⟩ : MeasurementEvent))
      = Prod.fst := by
    funext ib
    rfl
  rw [hc, List.enum_map_fst]

/-- Sample bodies are never counted as summaries. -/
theorem countP_summary_samples (l : List Sample) :
    (l.map EventBody.sample).countP EventBody.isSummary = 0 := by
  rw [List.countP_map]
  refine List.countP_eq_zero.mpr ?_
  intro a _
  simp [Function.comp, EventBody.isSummary]

/-- Sample bodies are never counted as errors. -/
theorem countP_error_samples (l : List Sample) :
    (l.map EventBody.sample).countP EventBody.isError = 0 := by
  rw [List.countP_map]
  refine List.countP_eq_zero.mpr ?_
  intro a _
  simp [Function.comp, EventBody.isError]

/-- Every run pushes exactly one summary body. -/
theorem sessionBodies_count_summary (p : ExitPath) :
    (sessionBodies p).countP EventBody.isSummary = 1 := by
  unfold sessionBodies
  rw [List.countP_append, List.countP_append, countP_summary_samples]
  cases hp : p.hasError <;> simp [EventBody.isSummary, List.countP_cons]

/-- A run pushes an error body exactly when it ends in a transport
error, and then exactly one. -/
theorem sessionBodies_count_error (p : ExitPath) :
    (sessionBodies p).countP EventBody.isError = if p.hasError then 1 else 0 := by
  unfold sessionBodies
  rw [List.countP_append, List.countP_append, countP_error_samples]
  cases hp : p.hasError <;> simp [EventBody.isError, List.countP_cons]

/-- The last body every run pushes is its summary. -/
theorem sessionBodies_getLast (p : ExitPath) :
    (sessionBodies p).getLast? = some (EventBody.summary (mkSummary p)) := by
  unfold sessionBodies
  simp [List.getLast?_append]

/-- Every run's emission sequence carries exactly one SummaryEvent. -/
theorem sessionEvents_count_summary (p : ExitPath) :
    (sessionEvents p).countP (fun e => e.body.isSummary) = 1 := by
  rw [show (fun e : MeasurementEvent => e.body.isSummary)
        = (EventBody.isSummary ∘ fun e : MeasurementEvent => e.body) from rfl,
      ← List.countP_map, sessionEvents_map_body]
  exact sessionBodies_count_summary p

/-- In a well-formed heap the fresh identifier is not live. -/
theorem wf_not_live_nextId (h : Heap) (hwf : h.wf = true) :
    h.live h.nextId = false := by
  unfold Heap.live
  rw [List.any_eq_false]
  intro b hb
  have hlt := List.all_eq_true.mp hwf b hb
  simp only [decide_eq_true_eq] at hlt
  simp only [beq_iff_eq]
  omega

/-- Allocation preserves heap well-formedness. -/
theorem wf_alloc (h : Heap) (s : String) (hwf : h.wf = true) :
    ((h.alloc s).2).wf = true := by
  unfold Heap.alloc Heap.wf at *
  rw [List.all_eq_true] at *
  intro b hb
  simp only [List.mem_cons] at hb
  rcases hb with hb | hb
  · subst hb; simp
  · have := hwf b hb
    simp only [decide_eq_true_eq] at *
    omega

/-- Releasing the block just allocated restores the original blocks,
provided the heap was well-formed. -/
theorem alloc_release_blocks (h : Heap) (s : String) (hwf : h.wf = true) :
    (((h.alloc s).2).release (h.alloc s).1).blocks = h.blocks := by
  unfold Heap.alloc Heap.release
  simp only [List.filter_cons, decide_eq_true_eq]
  rw [if_neg (by simp)]
  apply List.filter_eq_self.mpr
  intro b hb
  have hlt := List.all_eq_true.mp hwf b hb
  simp only [decide_eq_true_eq] at hlt ⊢
  omega

/-- Liveness depends only on the blocks. -/
theorem live_congr {h1 h2 : Heap} (hb : h1.blocks = h2.blocks) (p : Nat) :
    h1.live p = h2.live p := by
  unfold Heap.live
  rw [hb]

/-- Contents lookup depends only on the blocks. -/
theorem look_congr {h1 h2 : Heap} (hb : h1.blocks = h2.blocks) (p : Nat) :
    h1.look p = h2.look p := by
  unfold Heap.look
  rw [hb]

/-- A run's emission sequence carries an ErrorEvent exactly when it
ends in a transport error, and then exactly one. -/
theorem sessionEvents_count_error (p : ExitPath) :
    (sessionEvents p).countP (fun e => e.body.isError) = if p.hasError then 1 else 0 := by
  rw [show (fun e : MeasurementEvent => e.body.isError)
        = (EventBody.isError ∘ fun e : MeasurementEvent => e.body) from rfl,
      ← List.countP_map, sessionEvents_map_body]
  exact sessionBodies_count_error p

/-- Requesting cancellation twice is the same as requesting it once. -/
theorem nuvolari_stop_stop (st : EngineState) :
    nuvolari_stop (nuvolari_stop st) = nuvolari_stop st := by
  obtain ⟨s, q, f⟩ := st
  cases s <;> rfl

/-- Evaluating the wrapper on a `NULL` settings pointer: no copy is
made, `NULL` is forwarded to the engine, the heap is untouched. -/
theorem start_download_eval_null {σ : Type} (engine : Option String → σ → Int × σ)
    (h : Heap) (allocOk : Bool) (es : σ) :
    nuvolari_start_download engine h none allocOk es
      = some ((engine none es).1, h, (engine none es).2) :=
  rfl

/-- Evaluating the wrapper when duplication succeeds: the engine runs
on the copied contents and the copy is released before returning. -/
theorem start_download_eval_dup {σ : Type} (engine : Option String → σ → Int × σ)
    (h : Heap) (p : Nat) (s : String) (es : σ) (hp : h.look p = some s) :
    nuvolari_start_download engine h (some p) true es
      = some ((engine (some s) es).1,
              ((h.alloc s).2).release (h.alloc s).1,
              (engine (some s) es).2) := by
  simp [nuvolari_start_download, hp, Heap.releaseOpt]

/-- Evaluating the wrapper when duplication fails: status 1, nothing
else happens. -/
theorem start_download_eval_dupFail {σ : Type} (engine : Option String → σ → Int × σ)
    (h : Heap) (p : Nat) (s : String) (es : σ) (hp : h.look p = some s) :
    nuvolari_start_download engine h (some p) false es = some (1, h, es) := by
  simp [nuvolari_start_download, hp]

/-- Case analysis of the engine start entry point: status 0 exactly on
a successful start, and every failure leaves the engine state (and so
the current stream) untouched. -/
theorem start_engine_cases (parse : String → Option Config)
    (settings : Option String) (st : EngineState) :
    ((nuvolari_start_download_ parse settings st).1 = 0
      ↔ st.state.isActive = false
        ∧ ∃ s cfg, settings = some s ∧ parse s = some cfg ∧ validConfig cfg = true)
    ∧ ((nuvolari_start_download_ parse settings st).1 ≠ 0
        → (nuvolari_start_download_ parse settings st).2 = st) := by
  unfold nuvolari_start_download_
  cases hact : st.state.isActive with
  | true =>
    simp only [hact, if_true]
    constructor
    · constructor
      · intro h0
        exact absurd h0 (by norm_num [codeAlreadyRunning])
      · rintro ⟨hfalse, -⟩
        cases hfalse
    · intro _
      trivial
  | false =>
    simp only [hact, Bool.false_eq_true, if_false]
    cases settings with
    | none => simp [codeInvalidConfiguration]
    | some s =>
      cases hps : parse s with
      | none => simp [hps, codeInvalidConfiguration]
      | some cfg =>
        cases hv : validConfig cfg with
        | true => simp [hps, hv]
        | false => simp [hps, hv, codeInvalidConfiguration]

/-! ## Claim theorems -/

/-- C1: for every session run, regardless of exit path (normal
completion, error, or cancellation), the stream carries exactly one
SummaryEvent, it is the last event before the terminal marker, and
draining the stream observes every event, then the marker, and
end-of-stream on every further request — no events after the marker. -/
theorem session_one_summary_then_marker (p : ExitPath) (k : Nat) :
    (sessionEvents p).countP (fun e => e.body.isSummary) = 1
    ∧ ((sessionEvents p).map (fun e => e.body)).getLast?
        = some (EventBody.summary (mkSummary p))
    ∧ drainObs ((sessionEvents p).length + (k + 1)) ⟨sessionEvents p, true⟩
        = (sessionEvents p).map some ++ List.replicate (k + 1) none := by
  refine ⟨sessionEvents_count_summary p, ?_, drainObs_closed _ _⟩
  rw [sessionEvents_map_body]
  exact sessionBodies_getLast p

/-- C3: `nuvolari_get_next_event` blocks exactly when no event is
pending and the stream has not terminated; it returns the null sentinel
exactly when the terminal marker has been reached, and in that case it
leaves the whole state unchanged, so every subsequent call returns the
null sentinel again. -/
theorem get_next_event_sentinel_idempotent (st : EngineState) (h : Heap) :
    (nuvolari_get_next_event st h = none
        ↔ st.queue.items = [] ∧ st.queue.closed = false)
    ∧ ((∃ h' st', nuvolari_get_next_event st h = some (none, h', st'))
        ↔ st.queue.items = [] ∧ st.queue.closed = true)
    ∧ (st.queue.items = [] → st.queue.closed = true →
        nuvolari_get_next_event st h = some (none, h, st)) := by
  obtain ⟨s, ⟨items, closed⟩, f⟩ := st
  cases items <;> cases closed <;>
    simp [nuvolari_get_next_event, nuvolari_get_next_event_, EventQueue.pop]

/-- Closed witness for C3: at end-of-stream the call returns the null
sentinel and leaves the state unchanged. -/
theorem get_next_event_sentinel_idempotent_witness :
    nuvolari_get_next_event ⟨.Completed, ⟨[], true⟩, false⟩ emptyHeap
      = some (none, emptyHeap, ⟨.Completed, ⟨[], true⟩, false⟩) :=
  (get_next_event_sentinel_idempotent ⟨.Completed, ⟨[], true⟩, false⟩ emptyHeap).2.2
    rfl rfl

/-- C4: events are delivered in exactly the order the producer emitted
them — pushing an emission sequence and draining observes that sequence
unchanged (FIFO, no reordering or coalescing) — and the sequence
numbers of the events of any run are strictly increasing. -/
theorem fifo_delivery_monotone_seq (evs : List MeasurementEvent) (p : ExitPath) (k : Nat) :
    drainObs (evs.length + k) ((EventQueue.pushAll ⟨[], false⟩ evs).close)
        = evs.map some ++ List.replicate k none
    ∧ ((sessionEvents p).map (fun e => e.seq)).Pairwise (· < ·) := by
  constructor
  · rw [pushAll_items]
    show drainObs _ ⟨[] ++ evs, true⟩ = _
    rw [List.nil_append]
    exact drainObs_closed evs k
  · rw [sessionEvents_map_seq]
    exact List.pairwise_lt_range _

/-- C5: `nuvolari_stop` is total and idempotent — a second request is
absorbed, any positive number of requests equals one, and once the
session has ended (or never started) a request is a no-op leaving the
state exactly as it was. -/
theorem stop_idempotent_noop (st : EngineState) :
    nuvolari_stop (nuvolari_stop st) = nuvolari_stop st
    ∧ (st.state.hasEnded = true → nuvolari_stop st = st)
    ∧ ∀ n : Nat, nuvolari_stop^[n + 1] st = nuvolari_stop st := by
  refine ⟨nuvolari_stop_stop st, ?_, ?_⟩
  · intro hend
    obtain ⟨s, q, f⟩ := st
    cases s <;> first | rfl | simp [SessionState.hasEnded] at hend
  · intro n
    induction n with
    | zero => rfl
    | succ m ih =>
      rw [Function.iterate_succ_apply']
      rw [ih, nuvolari_stop_stop]

/-- Closed witness for C5: on a completed session a stop request is a
no-op. -/
theorem stop_idempotent_noop_witness :
    nuvolari_stop ⟨.Completed, ⟨[], true⟩, false⟩ = ⟨.Completed, ⟨[], true⟩, false⟩ :=
  (stop_idempotent_noop ⟨.Completed, ⟨[], true⟩, false⟩).2.1 rfl

/-- C2: `nuvolari_start_download` answers with a status code — 0
exactly when the session is accepted (duplication succeeded, no session
active, settings parse to a valid configuration), non-zero on every
failure (malformed input, already running, or allocation failure at
the boundary) — and on every failure the engine state, hence the event
stream, is untouched: no event is produced, the failure is reported
solely via the return code. -/
theorem start_download_status_and_no_event (parse : String → Option Config)
    (h : Heap) (p : Nat) (s : String) (allocOk : Bool) (st : EngineState)
    (hp : h.look p = some s) :
    (∃ r, nuvolari_start_download (nuvolari_start_download_ parse) h (some p) allocOk st
        = some r)
    ∧ ∀ rv h' st',
        nuvolari_start_download (nuvolari_start_download_ parse) h (some p) allocOk st
          = some (rv, h', st') →
        (rv = 0 ↔ allocOk = true ∧ st.state.isActive = false
            ∧ ∃ cfg, parse s = some cfg ∧ validConfig cfg = true)
        ∧ (rv ≠ 0 → st' = st) := by
  cases allocOk with
  | false =>
    rw [start_download_eval_dupFail _ h p s st hp]
    refine ⟨⟨_, rfl⟩, ?_⟩
    intro rv h' st' heq
    obtain ⟨h1, h2, h3⟩ : rv = 1 ∧ h' = h ∧ st' = st := by
      simpa [eq_comm] using heq
    subst h1
    subst h3
    constructor
    · constructor
      · intro h0
        exact absurd h0 (by norm_num)
      · rintro ⟨hfalse, -⟩
        cases hfalse
    · intro _
      rfl
  | true =>
    rw [start_download_eval_dup _ h p s st hp]
    refine ⟨⟨_, rfl⟩, ?_⟩
    intro rv h' st' heq
    obtain ⟨h1, h2, h3⟩ :
        rv = (nuvolari_start_download_ parse (some s) st).1
          ∧ h' = ((h.alloc s).2).release (h.alloc s).1
          ∧ st' = (nuvolari_start_download_ parse (some s) st).2 := by
      simpa [eq_comm] using heq
    subst h1
    subst h3
    have hc := start_engine_cases parse (some s) st
    constructor
    · rw [hc.1]
      constructor
      · rintro ⟨hact, s', cfg, hs, hcfg, hv⟩
        obtain rfl : s' = s := by
          simpa [eq_comm] using hs
        exact ⟨rfl, hact, cfg, hcfg, hv⟩
      · rintro ⟨-, hact, cfg, hcfg, hv⟩
        exact ⟨hact, s, cfg, rfl, hcfg, hv⟩
    · exact hc.2

/-- Closed witness for C2: with no active session, successful
duplication and a valid parsed configuration, the call reports 0. -/
theorem start_download_status_and_no_event_witness :
    (0 : Int) = 0 ↔ true = true
      ∧ SessionState.isActive .Idle = false
      ∧ ∃ cfg, some (⟨true, "h", "443", false⟩ : Config) = some cfg
          ∧ validConfig cfg = true :=
  ((start_download_status_and_no_event (fun _ => some ⟨true, "h", "443", false⟩)
      ⟨[(0, "cfg")], 1⟩ 0 "cfg" true ⟨.Idle, ⟨[], true⟩, false⟩ rfl).2
    0 ⟨[(0, "cfg")], 2⟩ ⟨.Connecting, ⟨[], false⟩, false⟩ (by decide)).1

/-- C6: a second `nuvolari_start_download` while a session is still
`Measuring` returns a non-zero status and leaves the engine state —
hence the first session's event stream — exactly as it was: the first
consumer observes the same sequence of events as if the second call had
not happened. -/
theorem second_start_while_measuring (parse : String → Option Config)
    (h : Heap) (settings : Option Nat) (allocOk : Bool) (st : EngineState)
    (hm : st.state = .Measuring) :
    ∀ rv h' st',
      nuvolari_start_download (nuvolari_start_download_ parse) h settings allocOk st
        = some (rv, h', st') →
      rv ≠ 0 ∧ st' = st := by
  have hact : st.state.isActive = true := by
    rw [hm]
    rfl
  have hengine : ∀ os, nuvolari_start_download_ parse os st = (codeAlreadyRunning, st) := by
    intro os
    unfold nuvolari_start_download_
    rw [hact]
    simp
  intro rv h' st' heq
  cases settings with
  | none =>
    rw [start_download_eval_null, hengine] at heq
    obtain ⟨h1, -, h3⟩ : codeAlreadyRunning = rv ∧ h = h' ∧ st = st' := by
      simpa using heq
    subst h1
    subst h3
    exact ⟨by norm_num [codeAlreadyRunning], rfl⟩
  | some p =>
    cases hlk : h.look p with
    | none =>
      rw [show nuvolari_start_download (nuvolari_start_download_ parse) h (some p) allocOk st
            = none by simp [nuvolari_start_download, hlk]] at heq
      cases heq
    | some s =>
      cases allocOk with
      | false =>
        rw [start_download_eval_dupFail _ h p s st hlk] at heq
        obtain ⟨h1, -, h3⟩ : (1 : Int) = rv ∧ h = h' ∧ st = st' := by
          simpa using heq
        subst h1
        subst h3
        exact ⟨by norm_num, rfl⟩
      | true =>
        rw [start_download_eval_dup _ h p s st hlk, hengine] at heq
        obtain ⟨h1, -, h3⟩ : codeAlreadyRunning = rv ∧ _ = h' ∧ st = st' := by
          simpa using heq
        subst h1
        subst h3
        exact ⟨by norm_num [codeAlreadyRunning], rfl⟩

/-- Closed witness for C6: a second start against a `Measuring` session
fails and changes nothing. -/
theorem second_start_while_measuring_witness :
    codeAlreadyRunning ≠ 0
      ∧ (⟨.Measuring, ⟨[], false⟩, false⟩ : EngineState)
          = ⟨.Measuring, ⟨[], false⟩, false⟩ :=
  second_start_while_measuring (fun _ => none) emptyHeap none true
    ⟨.Measuring, ⟨[], false⟩, false⟩ rfl
    codeAlreadyRunning emptyHeap ⟨.Measuring, ⟨[], false⟩, false⟩ rfl

/-- C9: for every non-null settings pointer, the wrapper works on a
private heap copy which it releases before returning — the final heap
has exactly the caller's blocks, the caller's settings buffer is intact
(never modified, never freed, never retained), and when duplication
succeeds the engine is run on the copied contents. -/
theorem start_download_private_copy {σ : Type} (engine : Option String → σ → Int × σ)
    (es : σ) (h : Heap) (p : Nat) (s : String) (allocOk : Bool)
    (hwf : h.wf = true) (hp : h.look p = some s) :
    ∀ rv h' es', nuvolari_start_download engine h (some p) allocOk es = some (rv, h', es') →
      h'.blocks = h.blocks
      ∧ h'.look p = some s
      ∧ (allocOk = true → (rv, es') = engine (some s) es) := by
  intro rv h' es' heq
  cases allocOk with
  | false =>
    rw [start_download_eval_dupFail _ h p s es hp] at heq
    obtain ⟨-, h2, -⟩ : (1 : Int) = rv ∧ h = h' ∧ es = es' := by
      simpa using heq
    subst h2
    exact ⟨rfl, hp, fun hfalse => by cases hfalse⟩
  | true =>
    rw [start_download_eval_dup _ h p s es hp] at heq
    obtain ⟨h1, h2, h3⟩ :
        (engine (some s) es).1 = rv
          ∧ ((h.alloc s).2).release (h.alloc s).1 = h'
          ∧ (engine (some s) es).2 = es' := by
      simpa using heq
    subst h2
    have hb : (((h.alloc s).2).release (h.alloc s).1).blocks = h.blocks :=
      alloc_release_blocks h s hwf
    refine ⟨hb, ?_, ?_⟩
    · rw [look_congr hb]
      exact hp
    · intro _
      rw [← h1, ← h3]

/-- Closed witness for C9: a successful call leaves the caller's heap
blocks exactly as they were. -/
theorem start_download_private_copy_witness :
    (⟨[(0, "cfg")], 2⟩ : Heap).blocks = (⟨[(0, "cfg")], 1⟩ : Heap).blocks :=
  (start_download_private_copy (fun _ (u : Unit) => (0, u)) Unit.unit
    ⟨[(0, "cfg")], 1⟩ 0 "cfg" true rfl rfl 0 ⟨[(0, "cfg")], 2⟩ Unit.unit rfl).1

/-- C10: on a `NULL` settings pointer the wrapper skips the
copy-allocation step, forwards `NULL` to the engine entry point and
returns the engine's status with the heap untouched; whenever settings
are non-null and duplication succeeds the status again comes from the
engine, and the wrapper's own allocation-failure status 1 arises
exactly when settings are non-null and duplication fails. -/
theorem start_download_null_path {σ : Type} (engine : Option String → σ → Int × σ)
    (es : σ) (h : Heap) (allocOk : Bool) :
    nuvolari_start_download engine h none allocOk es
      = some ((engine none es).1, h, (engine none es).2)
    ∧ (∀ p s, h.look p = some s → allocOk = true →
        nuvolari_start_download engine h (some p) allocOk es
          = some ((engine (some s) es).1,
                  ((h.alloc s).2).release (h.alloc s).1,
                  (engine (some s) es).2))
    ∧ (∀ p s, h.look p = some s → allocOk = false →
        nuvolari_start_download engine h (some p) allocOk es = some (1, h, es)) := by
  refine ⟨start_download_eval_null engine h allocOk es, ?_, ?_⟩
  · intro p s hp hok
    subst hok
    exact start_download_eval_dup engine h p s es hp
  · intro p s hp hok
    subst hok
    exact start_download_eval_dupFail engine h p s es hp

/-- Closed witness for C10: with a non-null pointer and failing
duplication the wrapper answers 1 without consulting the engine. -/
theorem start_download_null_path_witness :
    nuvolari_start_download (fun _ (u : Unit) => (7, u)) ⟨[(0, "x")], 1⟩ (some 0) false Unit.unit
      = some (1, ⟨[(0, "x")], 1⟩, Unit.unit) :=
  (start_download_null_path (fun _ (u : Unit) => (7, u)) Unit.unit
    ⟨[(0, "x")], 1⟩ false).2.2 0 "x" rfl rfl

/-- C7: a session run that ends in a transport connect/read/protocol
error emits its samples, then exactly one ErrorEvent, then exactly one
SummaryEvent whose `terminated_reason` is `Error`, and draining the
closed stream observes all of it followed by end-of-stream — the
consumer never hangs. -/
theorem transport_error_stream (bytes : List Nat) (k : Nat) :
    ((sessionEvents (.transportError bytes)).map (fun e => e.body)
        = (mkSamples bytes).map EventBody.sample
            ++ [EventBody.error ⟨"transport error"⟩,
                EventBody.summary (mkSummary (.transportError bytes))])
    ∧ (mkSummary (.transportError bytes)).terminated_reason = .Error
    ∧ (sessionEvents (.transportError bytes)).countP (fun e => e.body.isError) = 1
    ∧ (sessionEvents (.transportError bytes)).countP (fun e => e.body.isSummary) = 1
    ∧ drainObs ((sessionEvents (.transportError bytes)).length + (k + 1))
        ⟨sessionEvents (.transportError bytes), true⟩
        = (sessionEvents (.transportError bytes)).map some ++ List.replicate (k + 1) none := by
  refine ⟨?_, rfl, ?_, sessionEvents_count_summary _, drainObs_closed _ _⟩
  · rw [sessionEvents_map_body]
    unfold sessionBodies
    simp [ExitPath.hasError, ExitPath.bytes]
  · rw [sessionEvents_count_error]
    rfl

/-- C8: ownership of every non-null value returned by
`nuvolari_get_next_event` transfers to the caller: the text lives in a
freshly allocated block (never a reused one), releasing it exactly once
via `nuvolari_free_event` is safe and brings the heap back to exactly
the caller's blocks (no double-free, and after the release the block is
gone so a second release would not be safe), omitting the release leaks
exactly that one block, and the engine neither frees nor reuses the
block on subsequent calls. -/
theorem event_ownership_transfer (st : EngineState) (h : Heap) (hwf : h.wf = true) :
    ∀ q h' st', nuvolari_get_next_event st h = some (some q, h', st') →
      h.live q = false
      ∧ h'.live q = true
      ∧ (∃ s, h'.blocks = (q, s) :: h.blocks)
      ∧ (nuvolari_free_event q h').blocks = h.blocks
      ∧ (nuvolari_free_event q h').live q = false
      ∧ h'.wf = true
      ∧ (∀ q2 h2 st2, nuvolari_get_next_event st' h' = some (some q2, h2, st2) →
          q2 ≠ q ∧ h2.live q = true) := by
  intro q h' st' heq
  obtain ⟨s0, ⟨items, closed⟩, f0⟩ := st
  cases items with
  | nil =>
    cases closed <;>
      simp [nuvolari_get_next_event, nuvolari_get_next_event_, EventQueue.pop] at heq
  | cons e rest =>
    simp only [nuvolari_get_next_event, nuvolari_get_next_event_, EventQueue.pop,
      Heap.alloc, Option.some.injEq, Prod.mk.injEq] at heq
    obtain ⟨hq, hh, hst⟩ := heq
    subst hq
    subst hh
    subst hst
    have hfresh : h.live h.nextId = false := wf_not_live_nextId h hwf
    have hrel : (((h.alloc (serializeEvent e)).2).release (h.alloc (serializeEvent e)).1).blocks
        = h.blocks := alloc_release_blocks h (serializeEvent e) hwf
    refine ⟨hfresh, ?_, ⟨serializeEvent e, rfl⟩, ?_, ?_, ?_, ?_⟩
    · simp [Heap.live]
    · exact hrel
    · rw [show nuvolari_free_event h.nextId ⟨(h.nextId, serializeEvent e) :: h.blocks, h.nextId + 1⟩
            = ((h.alloc (serializeEvent e)).2).release (h.alloc (serializeEvent e)).1 from rfl]
      rw [live_congr hrel]
      exact hfresh
    · exact wf_alloc h (serializeEvent e) hwf
    · intro q2 h2 st2 heq2
      cases rest with
      | nil =>
        cases closed <;>
          simp [nuvolari_get_next_event, nuvolari_get_next_event_, EventQueue.pop] at heq2
      | cons e2 rest2 =>
        simp only [nuvolari_get_next_event, nuvolari_get_next_event_, EventQueue.pop,
          Heap.alloc, Option.some.injEq, Prod.mk.injEq] at heq2
        obtain ⟨hq2, hh2, -⟩ := heq2
        subst hq2
        subst hh2
        constructor
        · omega
        · simp [Heap.live]

/-- Closed witness for C8: releasing the one returned value restores
the caller's (empty) heap. -/
theorem event_ownership_transfer_witness :
    (nuvolari_free_event 0 ⟨[(0, "seq=0;ts=0;type=error")], 1⟩).blocks = emptyHeap.blocks :=
  (event_ownership_transfer
    ⟨.Completed, ⟨[⟨0, 0, .error ⟨"x"⟩⟩], true⟩, false⟩ emptyHeap rfl
    0 ⟨[(0, "seq=0;ts=0;type=error")], 1⟩ ⟨.Completed, ⟨[], true⟩, false⟩
    (by decide)).2.2.2.1

end Nuvolari
